import Mathlib

/-!
# Verification of the goscripture-api-v2 semantic-search core

This file gives a shallow embedding, in Lean 4, of the embedding-and-retrieval
engine of the repository (packages `internal/search`, `internal/embeddings`,
and the HTTP handler / config files), and settles the frozen claims C1..C10
about it.

Modelling conventions, used throughout:

* Go `float32` vector components are modelled as exact rationals (`ℚ`).
  Floating-point rounding is abstracted away; every claim settled here is
  about control flow, list lengths, ordering and tie structure, or about
  algebraic identities whose failure is orders of magnitude larger than
  one ulp, so the idealisation is faithful for the properties at stake.
* `cosineSimilarity` in the source returns `dot / (sqrt(normA) * sqrt(normB))`.
  Square roots are irrational, so the model returns the image of that real
  number under the strictly monotone bijection `σ(x) = x * |x|`:
  `σ(dot / sqrt(normA*normB)) = dot * |dot| / (normA*normB)`, an exact
  rational.  Order, equality (ties) and zero are preserved exactly, which is
  all the search pipeline ever observes of a similarity value (it sorts by
  `>` and reports the value).
* `normalize` in `embeddings.go` divides a vector by the (irrational)
  euclidean norm `sqrt s`.  The model returns the exact pair
  `(vector, s)` denoting `vector / sqrt s` componentwise (with `s = 1`
  when the squared norm is zero, matching the source's early return of the
  unchanged vector, since `sqrt 1 = 1`).
* Go panics (out-of-range slice indexing such as `results[:k]` with `k < 0`,
  `vi.Vectors[0]` on an empty index, or a failing unchecked type assertion
  `embedding["id"].(string)`) are modelled by `Option`: `none` is a panic.
* Go maps are modelled as association lists (`List (String × β)`) with
  overwrite-on-set semantics; a read of a missing key yields the zero value
  exactly where the source relies on that.
* `sort.Slice` is not part of the repository; it is Go's standard library
  pattern-defeating quicksort (`zsortfunc.go`, Go ≥ 1.19), which is NOT a
  stable sort.  It is transcribed here in full, list-based, with explicit
  fuel for the loops (every loop/recursion strictly shrinks the interval
  `[a, b)`, so the supplied fuel is never exhausted; the fuel-0 branch
  returns the list unchanged, which keeps every lemma about reachable
  executions honest).
* Concurrency (mutexes, the background ONNX initialiser) is dropped: all
  modelled operations are the sequential bodies the claims quantify over.
-/

namespace GoScripture

/-! ## Generic helpers: Go integers, maps, strings -/

/-- Truncation toward zero, the semantics of Go's `int(x)` conversion from a
float value. -/
def truncQ (x : ℚ) : Int :=
  if x < 0 then -(Int.floor (-x)) else Int.floor x

/-- Go `math/bits.Len` on a nonnegative value: number of bits required. -/
def bitsLen (n : Nat) : Nat :=
  if n = 0 then 0 else Nat.log2 n + 1

/-- Association-list read, modelling a Go map read `m[k]` (comma-ok form). -/
def assocFind (m : List (String × β)) (k : String) : Option β :=
  match m with
  | [] => none
  | (k0, v) :: rest => if k0 = k then some v else assocFind rest k

/-- Association-list write, modelling a Go map write `m[k] = v`
(overwrites an existing binding). -/
def assocSet (m : List (String × β)) (k : String) (v : β) : List (String × β) :=
  match m with
  | [] => [(k, v)]
  | (k0, v0) :: rest =>
      if k0 = k then (k0, v) :: rest else (k0, v0) :: assocSet rest k v

/-- Go `fmt.Sprintf("%d", n)` for an `int` value. -/
def goItoa (n : Int) : String := toString n

/-- Model of Go `strings.EqualFold` restricted to the ASCII case folding the
corpus and the claims exercise (Lean's `Char.toLower`). -/
def goEqualFold (a b : String) : Bool := a.toLower == b.toLower

/-! ## `internal/search`: data model (search.go) -/

/-- `Metadata` of search.go. -/
structure Metadata where
  Reference : String := ""
  Book : String := ""
  Chapter : Int := 0
  VerseNum : Int := 0
  Events : List String := []
  Entities : List String := []
deriving DecidableEq, Repr, Inhabited

/-- `ChunkData` of search.go. -/
structure ChunkData where
  ID : String := ""
  Text : String := ""
  Meta : Metadata := {}
deriving DecidableEq, Repr, Inhabited

/-- `TextData` of search.go. -/
structure TextData where
  Text : String := ""
  Meta : Metadata := {}
deriving DecidableEq, Repr, Inhabited

/-- `SearchResult` of search.go.  `Similarity`/`Score` carry the monotone
rational encoding of the float cosine similarity (see the header). -/
structure SearchResult where
  ID : String := ""
  Similarity : ℚ := 0
  Score : ℚ := 0
  Chunk : ChunkData := {}
deriving DecidableEq, Repr, Inhabited

/-- `SearchOptions` of search.go. -/
structure SearchOptions where
  Book : String := ""
  Chapter : String := ""
  Verse : String := ""
  Granularity : String := ""
  K : Int := 0
deriving DecidableEq, Repr, Inhabited

/-- `VectorIndex` of search.go: two parallel slices (the mutex is dropped). -/
structure VectorIndex where
  Vectors : List (List ℚ) := []
  IDs : List String := []
deriving DecidableEq, Repr, Inhabited

/-- `NewVectorIndex` of search.go. -/
def NewVectorIndex : VectorIndex := { Vectors := [], IDs := [] }

/-- `(*VectorIndex).Add` of search.go: appends unconditionally to both
slices; the source performs no dimension validation whatsoever. -/
def VectorIndex.add (vi : VectorIndex) (id : String) (vector : List ℚ) :
    VectorIndex :=
  { IDs := vi.IDs ++ [id], Vectors := vi.Vectors ++ [vector] }

/-- `(*VectorIndex).Size` of search.go. -/
def VectorIndex.size (vi : VectorIndex) : Nat := vi.Vectors.length

/-- `(*VectorIndex).Clear` of search.go. -/
def VectorIndex.clear (_vi : VectorIndex) : VectorIndex :=
  { Vectors := [], IDs := [] }

/-- `cosineSimilarity` of search.go, under the monotone encoding
`σ(x) = x * |x|` of the header: the source computes
`dot / (sqrt normA * sqrt normB)` (`0` on length mismatch or zero
magnitude); this definition returns `σ` of that real value, an exact
rational, preserving order, ties and zero. -/
def cosineSimilarity (a b : List ℚ) : ℚ :=
  if a.length ≠ b.length then 0
  else
    let dotProduct := ((a.zip b).map (fun p => p.1 * p.2)).sum
    let normA := (a.map (fun x => x * x)).sum
    let normB := (b.map (fun x => x * x)).sum
    let magSq := normA * normB
    if magSq = 0 then 0
    else dotProduct * |dotProduct| / magSq

/-! ## Go standard library `sort.Slice` (zsortfunc.go, Go ≥ 1.19)

`Search`/`SearchWithFilter` sort with `sort.Slice(results, less)`, which is
pattern-defeating quicksort over the slice with an index-based comparator —
documented as NOT stable.  The transcription below is list-based: the slice
is a `List α`, `data.Swap(i, j)` is `lswap`, `data.Less(i, j)` is `lessAt`.
Loops become fuel-based structural recursions; every loop strictly shrinks
its working interval, so the fuel passed at each call site is sufficient and
the fuel-0 fallback (returning the list unchanged) is unreachable in the
modelled executions. -/

/-- `data.Swap(i, j)`: exchange two positions (out of range: no-op; the
source never swaps out of range). -/
def lswap (l : List α) (i j : Nat) : List α :=
  match l[i]?, l[j]? with
  | some a, some b => (l.set i b).set j a
  | _, _ => l

/-- `data.Less(i, j)`: compare two positions (out of range: `false`; the
source never compares out of range). -/
def lessAt (less : α → α → Bool) (l : List α) (i j : Nat) : Bool :=
  match l[i]?, l[j]? with
  | some x, some y => less x y
  | _, _ => false

/-- Inner loop of `insertionSort_func`: bubble the element at `j` left while
`j > lo` and it is `less` than its left neighbour. -/
def innerGo (less : α → α → Bool) (lo : Nat) : List α → Nat → List α
  | l, 0 => l
  | l, j + 1 =>
      if lo ≤ j ∧ lessAt less l (j + 1) j then
        innerGo less lo (lswap l (j + 1) j) j
      else l

/-- Outer loop of `insertionSort_func` (`for i := a+1; i < b; i++`). -/
def outerGo (less : α → α → Bool) (lo b : Nat) : Nat → List α → Nat → List α
  | 0, l, _ => l
  | fuel + 1, l, i =>
      if i < b then outerGo less lo b fuel (innerGo less lo l i) (i + 1)
      else l

/-- `insertionSort_func(data, a, b)` of zsortfunc.go. -/
def insertionSortGo (less : α → α → Bool) (l : List α) (a b : Nat) : List α :=
  outerGo less a b (b - a) l (a + 1)

/-- `siftDown_func(data, lo, hi, first)` of zsortfunc.go (fuel = `hi`). -/
def siftDownGo (less : α → α → Bool) (hi first : Nat) :
    Nat → List α → Nat → List α
  | 0, l, _ => l
  | fuel + 1, l, root =>
      let child := 2 * root + 1
      if child ≥ hi then l
      else
        let child :=
          if child + 1 < hi ∧ lessAt less l (first + child) (first + child + 1)
          then child + 1 else child
        if ¬ lessAt less l (first + root) (first + child) then l
        else siftDownGo less hi first fuel (lswap l (first + root) (first + child)) child

/-- Heap-building loop of `heapSort_func` (`for i := (hi-1)/2; i >= 0; i--`). -/
def heapBuildGo (less : α → α → Bool) (hi first : Nat) : Nat → List α → List α
  | 0, l => siftDownGo less hi first hi l 0
  | i + 1, l => heapBuildGo less hi first i (siftDownGo less hi first hi l (i + 1))

/-- Pop loop of `heapSort_func` (`for i := hi-1; i >= 0; i--`). -/
def heapPopGo (less : α → α → Bool) (first : Nat) : Nat → List α → List α
  | 0, l => siftDownGo less 0 first 0 (lswap l first (first + 0)) 0
  | i + 1, l =>
      heapPopGo less first i
        (siftDownGo less (i + 1) first (i + 1) (lswap l first (first + i + 1)) 0)

/-- `heapSort_func(data, a, b)` of zsortfunc.go. -/
def heapSortGo (less : α → α → Bool) (l : List α) (a b : Nat) : List α :=
  let hi := b - a
  match hi with
  | 0 => l
  | hi + 1 => heapPopGo less a hi (heapBuildGo less (hi + 1) a (hi / 2) l)

/-- `reverseRange_func(data, a, b)` of zsortfunc.go (fuel = half-length). -/
def reverseRangeAux : Nat → List α → Nat → Nat → List α
  | 0, l, _, _ => l
  | fuel + 1, l, i, j =>
      if i < j then reverseRangeAux fuel (lswap l i j) (i + 1) (j - 1) else l

/-- `reverseRange_func(data, a, b)`. -/
def reverseRangeGo (l : List α) (a b : Nat) : List α :=
  reverseRangeAux b l a (b - 1)

/-- Go `xorshift.Next` (a 64-bit xorshift PRNG), on `Nat % 2^64`. -/
def xorshiftNext (r : Nat) : Nat :=
  let r := (Nat.xor r (r <<< 13)) % (2 ^ 64)
  let r := (Nat.xor r (r >>> 7)) % (2 ^ 64)
  (Nat.xor r (r <<< 17)) % (2 ^ 64)

/-- Swap loop of `breakPatterns_func` (three swaps driven by the PRNG). -/
def breakPatternsLoop (a len modulus : Nat) (idx : Nat) :
    Nat → Nat → List α → List α
  | _, 0, l => l
  | rand, n + 1, l =>
      let rand := xorshiftNext rand
      let other := Nat.land rand (modulus - 1)
      let other := if other ≥ len then other - len else other
      breakPatternsLoop a len modulus (idx + 1) rand n (lswap l idx (a + other))

/-- `breakPatterns_func(data, a, b)` of zsortfunc.go. -/
def breakPatternsGo (l : List α) (a b : Nat) : List α :=
  let len := b - a
  if len ≥ 8 then
    let modulus := 2 ^ (bitsLen len)
    let idx := a + (len / 4) * 2 - 1
    breakPatternsLoop a len modulus idx len 3 l
  else l

/-- Hints returned by `choosePivot_func`. -/
inductive SortHint where
  | unknown
  | increasing
  | decreasing
deriving DecidableEq, Repr

/-- `order2_func(data, a, b, &swaps)`: order two indices by the data they
point at, counting an exchange. -/
def order2Go (less : α → α → Bool) (l : List α) (a b swaps : Nat) :
    Nat × Nat × Nat :=
  if lessAt less l b a then (b, a, swaps + 1) else (a, b, swaps)

/-- `median_func(data, a, b, c, &swaps)`: index of the median of three. -/
def medianGo (less : α → α → Bool) (l : List α) (a b c swaps : Nat) :
    Nat × Nat :=
  let (a, b, swaps) := order2Go less l a b swaps
  let (b, _, swaps) := order2Go less l b c swaps
  let (_, b, swaps) := order2Go less l a b swaps
  (b, swaps)

/-- `medianAdjacent_func(data, a, &swaps)`: median of `a-1, a, a+1`. -/
def medianAdjacentGo (less : α → α → Bool) (l : List α) (a swaps : Nat) :
    Nat × Nat :=
  medianGo less l (a - 1) a (a + 1) swaps

/-- `choosePivot_func(data, a, b)` of zsortfunc.go: returns the pivot index
and a sortedness hint.  Mutates nothing. -/
def choosePivotGo (less : α → α → Bool) (l : List α) (a b : Nat) :
    Nat × SortHint :=
  let len := b - a
  let i := a + (len / 4) * 1
  let j := a + (len / 4) * 2
  let k := a + (len / 4) * 3
  let (j, swaps) :=
    if len ≥ 8 then
      if len ≥ 50 then
        let (i, swaps) := medianAdjacentGo less l i 0
        let (j, swaps) := medianAdjacentGo less l j swaps
        let (k, swaps) := medianAdjacentGo less l k swaps
        medianGo less l i j k swaps
      else medianGo less l i j k 0
    else (j, 0)
  if swaps = 0 then (j, SortHint.increasing)
  else if swaps = 12 then (j, SortHint.decreasing)
  else (j, SortHint.unknown)

/-- Upward scan `for i <= j && p i: i++` shared by the partition loops
(fuel ≥ `j + 1 - i`); returns the final `i`. -/
def scanIncGo (p : Nat → Bool) (j : Nat) : Nat → Nat → Nat
  | 0, i => i
  | fuel + 1, i => if i ≤ j ∧ p i then scanIncGo p j fuel (i + 1) else i

/-- Downward scan `for i <= j && p j: j--` shared by the partition loops
(fuel ≥ `j + 1 - i`); returns the final `j` (every call site has
`i ≥ a + 1 ≥ 1`, so the stop value `i - 1` stays in `Nat` range). -/
def scanDecGo (p : Nat → Bool) (i : Nat) : Nat → Nat → Nat
  | 0, j => j
  | fuel + 1, j => if i ≤ j ∧ p j then scanDecGo p i fuel (j - 1) else j

/-- Main loop of `partition_func` after the first split pass. -/
def partitionLoopGo (less : α → α → Bool) (a b : Nat) :
    Nat → List α → Nat → Nat → List α × Nat
  | 0, l, _, j => (l, j)
  | fuel + 1, l, i, j =>
      let i := scanIncGo (fun idx => lessAt less l idx a) j b i
      let j := scanDecGo (fun idx => ¬ lessAt less l idx a) i b j
      if i > j then (l, j)
      else partitionLoopGo less a b fuel (lswap l i j) (i + 1) (j - 1)

/-- `partition_func(data, a, b, pivot)` of zsortfunc.go: Hoare-style
partition around the pivot moved to `a`; returns the final pivot position
and whether the range was already partitioned. -/
def partitionGo (less : α → α → Bool) (l : List α) (a b pivot : Nat) :
    List α × Nat × Bool :=
  let l := lswap l a pivot
  let i := scanIncGo (fun idx => lessAt less l idx a) (b - 1) b (a + 1)
  let j := scanDecGo (fun idx => ¬ lessAt less l idx a) i b (b - 1)
  if i > j then (lswap l j a, j, true)
  else
    let lj := partitionLoopGo less a b b (lswap l i j) (i + 1) (j - 1)
    (lswap lj.1 lj.2 a, lj.2, false)

/-- Loop of `partitionEqual_func`. -/
def partitionEqualLoopGo (less : α → α → Bool) (a : Nat) :
    Nat → List α → Nat → Nat → List α × Nat
  | 0, l, i, _ => (l, i)
  | fuel + 1, l, i, j =>
      let i := scanIncGo (fun idx => ¬ lessAt less l a idx) j (j + 1) i
      let j := scanDecGo (fun idx => lessAt less l a idx) i (j + 1) j
      if i > j then (l, i)
      else partitionEqualLoopGo less a fuel (lswap l i j) (i + 1) (j - 1)

/-- `partitionEqual_func(data, a, b, pivot)` of zsortfunc.go: groups the
elements equal to the pivot (moved to `a`) at the front; returns the first
index past them. -/
def partitionEqualGo (less : α → α → Bool) (l : List α) (a b pivot : Nat) :
    List α × Nat :=
  let l := lswap l a pivot
  partitionEqualLoopGo less a b l (a + 1) (b - 1)

/-- Left-shift loop of `partialInsertionSort_func`
(`for j := i-1; j >= 1; j--`), stopping at the first ordered pair. -/
def shiftLeftGo (less : α → α → Bool) (a : Nat) : Nat → List α → Nat → List α
  | 0, l, _ => l
  | fuel + 1, l, j =>
      if j ≥ 1 then
        if ¬ lessAt less l j (j - 1) then l
        else shiftLeftGo less a fuel (lswap l j (j - 1)) (j - 1)
      else l

/-- Right-shift loop of `partialInsertionSort_func`
(`for j := i+1; j < b; j++`), stopping at the first ordered pair. -/
def shiftRightGo (less : α → α → Bool) (b : Nat) : Nat → List α → Nat → List α
  | 0, l, _ => l
  | fuel + 1, l, j =>
      if j < b then
        if ¬ lessAt less l j (j - 1) then l
        else shiftRightGo less b fuel (lswap l j (j - 1)) (j + 1)
      else l

/-- Forward scan of `partialInsertionSort_func`
(`for i < b && !data.Less(i, i-1): i++`). -/
def scanSortedGo (less : α → α → Bool) (l : List α) (b : Nat) :
    Nat → Nat → Nat
  | 0, i => i
  | fuel + 1, i =>
      if i < b ∧ ¬ lessAt less l i (i - 1) then scanSortedGo less l b fuel (i + 1)
      else i

/-- Step loop of `partialInsertionSort_func` (at most `maxSteps = 5`
adjacent out-of-order pairs are repaired); returns the possibly mutated
list and whether the range ended up sorted. -/
def partialInsertionSortLoop (less : α → α → Bool) (a b : Nat) :
    Nat → List α → Nat → List α × Bool
  | 0, l, _ => (l, false)
  | steps + 1, l, i =>
      let i := scanSortedGo less l b b i
      if i = b then (l, true)
      else if b - a < 50 then (l, false)
      else
        let l := lswap l i (i - 1)
        let l := if i - a ≥ 2 then shiftLeftGo less a b l (i - 1) else l
        let l := if b - i ≥ 2 then shiftRightGo less b b l (i + 1) else l
        partialInsertionSortLoop less a b steps l i

/-- `partialInsertionSort_func(data, a, b)` of zsortfunc.go: attempts to
finish sorting an almost-sorted range; on short ranges (`b - a < 50`) it
mutates nothing. -/
def partialInsertionSortGo (less : α → α → Bool) (l : List α) (a b : Nat) :
    List α × Bool :=
  partialInsertionSortLoop less a b 5 l (a + 1)

/-- `pdqsort_func(data, a, b, limit)` of zsortfunc.go.  The Go `for` loop
with `continue` is the tail-recursive call that keeps the updated balance
flags; the true recursive call on the shorter side re-enters with both
flags `true`, exactly as a fresh Go invocation does.  The fuel strictly
exceeds the interval length at the top call and every nested interval is
strictly shorter, so fuel never runs out on modelled executions. -/
def pdqsortGo (less : α → α → Bool) :
    Nat → List α → Nat → Nat → Int → Bool → Bool → List α
  | 0, l, _, _, _, _, _ => l
  | fuel + 1, l, a, b, limit, wasBalanced, wasPartitioned =>
      let len := b - a
      if len ≤ 12 then insertionSortGo less l a b
      else if limit = 0 then heapSortGo less l a b
      else
        let l1 := if ¬ wasBalanced then breakPatternsGo l a b else l
        let limit1 := if ¬ wasBalanced then limit - 1 else limit
        let ph := choosePivotGo less l1 a b
        let l2 := if ph.2 = SortHint.decreasing then reverseRangeGo l1 a b else l1
        let pivot := if ph.2 = SortHint.decreasing then (b - 1) - (ph.1 - a) else ph.1
        let hint := if ph.2 = SortHint.decreasing then SortHint.increasing else ph.2
        let pis :=
          if wasBalanced ∧ wasPartitioned ∧ hint = SortHint.increasing then
            partialInsertionSortGo less l2 a b
          else (l2, false)
        if pis.2 then pis.1
        else if 0 < a ∧ ¬ lessAt less pis.1 (a - 1) pivot then
          let pe := partitionEqualGo less pis.1 a b pivot
          pdqsortGo less fuel pe.1 pe.2 b limit1 wasBalanced wasPartitioned
        else
          let pt := partitionGo less pis.1 a b pivot
          let balanced := decide (min (pt.2.1 - a) (b - pt.2.1) ≥ len / 8)
          if pt.2.1 - a < b - pt.2.1 then
            pdqsortGo less fuel
              (pdqsortGo less fuel pt.1 a pt.2.1 limit1 true true)
              (pt.2.1 + 1) b limit1 balanced pt.2.2
          else
            pdqsortGo less fuel
              (pdqsortGo less fuel pt.1 (pt.2.1 + 1) b limit1 true true)
              a pt.2.1 limit1 balanced pt.2.2

/-- `sort.Slice(x, less)` of the Go standard library: pdqsort over the
whole slice with `limit = bits.Len(uint(n))`. -/
def goSortSlice (less : α → α → Bool) (l : List α) : List α :=
  pdqsortGo less (l.length + 1) l 0 l.length (Int.ofNat (bitsLen l.length)) true true

/-- A comparator ordering by a rational key, descending — the shape of
every `less` closure the source passes to `sort.Slice`. -/
def keyLess (key : α → ℚ) (a b : α) : Bool := decide (key b < key a)

/-- Proof-layer reformulation (not source code): insert `x` into `S` from
the right end, bubbling it left past exactly the elements it is `less`
than.  This is the list-level effect of one outer-loop step of
`insertionSort_func`, proved equal to the transcription below
(`innerGo_sim`). -/
def istep (less : α → α → Bool) (S : List α) (x : α) : List α :=
  (S.reverse.dropWhile (fun p => less x p)).reverse ++
    x :: (S.reverse.takeWhile (fun p => less x p)).reverse

/-- Proof-layer reformulation: left-to-right insertion sort as a fold of
`istep`, proved equal to `insertionSortGo` on a full range
(`insertionSortGo_sim`). -/
def isort (less : α → α → Bool) (l : List α) : List α :=
  l.foldl (istep less) []

/-! ## `internal/search`: VectorIndex search operations (search.go) -/

/-- The comparator closure passed to `sort.Slice` by `Search` and
`SearchWithFilter`: `results[i].Similarity > results[j].Similarity`. -/
def resultLess (r1 r2 : SearchResult) : Bool :=
  decide (r2.Similarity < r1.Similarity)

/-- The `(id, similarity)` collection loop of `SearchWithFilter`: iterate
the vectors with their ids in insertion order, keep those whose id passes
the filter.  `vi.IDs[i]` is only defined for `i < vi.IDs.length`; the
caller checks that (a shorter `IDs` slice would panic in Go). -/
def filteredResults (vi : VectorIndex) (query : List ℚ)
    (filter : String → Bool) : List SearchResult :=
  ((vi.IDs.zip vi.Vectors).filter (fun p => filter p.1)).map
    (fun p =>
      { ID := p.1
        Similarity := cosineSimilarity query p.2
        Score := cosineSimilarity query p.2 })

/-- `(*VectorIndex).SearchWithFilter(query, k, filter)` of search.go.
`none` models a Go panic: either `vi.IDs[i]` out of range (unreachable for
indexes built by `Add`) or the final `results[:k]` with `k < 0`. -/
def VectorIndex.searchWithFilter (vi : VectorIndex) (query : List ℚ)
    (k : Int) (filter : String → Bool) : Option (List SearchResult) :=
  if vi.Vectors.length = 0 then some []
  else if vi.IDs.length < vi.Vectors.length then none
  else
    let results := filteredResults vi query filter
    let sorted := goSortSlice resultLess results
    let k := if k > (results.length : Int) then (results.length : Int) else k
    if k < 0 then none else some (sorted.take k.toNat)

/-- The `(id, similarity)` collection loop of `Search`: every entry, in
insertion order. -/
def searchResultsList (vi : VectorIndex) (query : List ℚ) :
    List SearchResult :=
  (vi.IDs.zip vi.Vectors).map
    (fun p =>
      { ID := p.1
        Similarity := cosineSimilarity query p.2
        Score := cosineSimilarity query p.2 })

/-- `(*VectorIndex).Search(query, k)` of search.go: same body as
`SearchWithFilter` without the filter test. -/
def VectorIndex.search (vi : VectorIndex) (query : List ℚ) (k : Int) :
    Option (List SearchResult) :=
  if vi.Vectors.length = 0 then some []
  else if vi.IDs.length < vi.Vectors.length then none
  else
    let results := searchResultsList vi query
    let sorted := goSortSlice resultLess results
    let k := if k > (results.length : Int) then (results.length : Int) else k
    if k < 0 then none else some (sorted.take k.toNat)

/-- `(*VectorIndex).GetMemoryUsage` of search.go: reads `vi.Vectors[0]`
unconditionally, so an empty index panics (`none`).  String memory is the
id's byte length (`len(id)` in Go is the UTF-8 byte count). -/
def VectorIndex.getMemoryUsage (vi : VectorIndex) : Option Int :=
  match vi.Vectors with
  | [] => none
  | v0 :: _ =>
      let vectorMemory : Int := (vi.Vectors.length : Int) * (v0.length : Int) * 4
      let idMemory : Int :=
        vi.IDs.foldl (fun acc id => acc + (id.utf8ByteSize : Int)) 0
      some (vectorMemory + idMemory)

/-! ## `internal/search`: scalar quantization (search.go) -/

/-- `quantizeVector` of search.go: min-max scalar quantization to a centered
8-bit code.  Reads `vec[0]` unconditionally, so the empty vector panics
(`none`).  `int(normalized)` is Go float-to-int conversion: truncation
toward zero. -/
def quantizeVector (vec : List ℚ) : Option (List Int × ℚ) :=
  match vec with
  | [] => none
  | v0 :: _ =>
      let mm := vec.foldl
        (fun (p : ℚ × ℚ) v =>
          (if v < p.1 then v else p.1, if v > p.2 then v else p.2))
        (v0, v0)
      let scale := (mm.2 - mm.1) / 255
      let scale := if scale = 0 then 1 else scale
      let quantized := vec.map (fun v =>
        let normalized := (v - mm.1) / scale
        let val := truncQ normalized - 128
        if val < -128 then (-128 : Int) else if val > 127 then 127 else val)
      some (quantized, scale)

/-- `dequantizeVector` of search.go: `(float32(q) + 128) * scale`.  Note the
per-vector minimum captured during quantization is never added back. -/
def dequantizeVector (quantized : List Int) (scale : ℚ) : List ℚ :=
  quantized.map (fun q => ((q : ℚ) + 128) * scale)

/-! ## `internal/config` (config.go): the constants the modelled code reads -/

/-- `config.ModelConfig.Dimensions` (128-dimension Matryoshka truncation). -/
def modelDimensions : Nat := 128

/-- `config.ModelConfig.QueryPrefix` (source field name ends in `Prefix`). -/
def modelQueryPre : String := "task: search result | query: "

/-- `config.ModelConfig.DocumentPrefix` (source field name ends in
`Prefix`). -/
def modelDocumentPre : String := "title: none | text: "

/-- `config.ArweaveURLs.Verses`. -/
def urlVerses : String :=
  "https://arweave.net/DdKgzVD1zJDlFqcPKnOf620EviiU5LoGDqxrv5wxxUY"

/-- `config.ArweaveURLs.VersesUncompressed`. -/
def urlVersesUncompressed : String :=
  "https://arweave.net/uW8W0WE37IsmZuuH5NJxfrDLWjf_vFFK5v4MmzL2Gco"

/-- `config.ArweaveURLs.VerseText`. -/
def urlVerseText : String :=
  "https://arweave.net/daKtqqHpLRnAWCNEWY8Q92NwSyJxWbm7WFDE3ut_BuM"

/-- `config.ArweaveURLs.Chapters`. -/
def urlChapters : String :=
  "https://arweave.net/RLfnXY9-kD9McjalEhGgcK3ZZH9G_dXcfh6unygV1s8"

/-- `config.ArweaveURLs.ChaptersUncompressed`. -/
def urlChaptersUncompressed : String :=
  "https://arweave.net/JyOVgeD6IlWnIg8e24cPQgEidAADriGexHbhZ0Hs6Fo"

/-- `config.ArweaveURLs.ChapterText`. -/
def urlChapterText : String :=
  "https://arweave.net/daKtqqHpLRnAWCNEWY8Q92NwSyJxWbm7WFDE3ut_BuM"

/-! ## `internal/embeddings` (embeddings.go)

A vector produced by the embedding layer is a pair `(v, s) : List ℚ × ℚ`
denoting the real vector `v / sqrt s` componentwise (see the header); the
providers backed by native code are abstract functions of that type. -/

/-- An embedding vector in the exact scaled representation. -/
abbrev Emb := List ℚ × ℚ

/-- `normalize` of embeddings.go: divide by the euclidean norm; a zero
vector is returned unchanged.  `(v, s)` denotes `v / sqrt s`, and the
source's early return of `vec` itself is `(vec, 1)` since `sqrt 1 = 1`. -/
def normalizeGo (vec : List ℚ) : Emb :=
  let sum := (vec.map (fun v => v * v)).sum
  if sum = 0 then (vec, 1) else (vec, sum)

/-- The character-fold of `generatePlaceholderEmbedding`:
`hash = hash*31 + uint32(char)` over the string's runes, in `uint32`
arithmetic. -/
def placeholderHash (text : String) : Nat :=
  text.toList.foldl (fun h c => (h * 31 + c.toNat) % 2 ^ 32) 0

/-- `generatePlaceholderEmbedding` of embeddings.go: a deterministic
pseudo-vector from a rolling hash, one seed per dimension
(`seed = hash + i*2654435761` in `uint32`), each component mapped to
`seed / math.MaxUint32 * 2 - 1`, then L2-normalized. -/
def generatePlaceholderEmbedding (text : String) : Emb :=
  let hash := placeholderHash text
  let embedding := (List.range modelDimensions).map (fun i =>
    let seed : Nat := (hash + i * 2654435761) % 2 ^ 32
    ((seed : ℚ) / 4294967295) * 2 - 1)
  normalizeGo embedding

/-- `EmbeddingService` of embeddings.go: the two fallible providers are
abstract total functions returning `Except` (the ONNX runtime and the
precomputed-average service are external capabilities); `none` models a
`nil` service pointer. -/
structure EmbeddingService where
  realOnnxService : Option (String → Except String Emb) := none
  simpleService : Option (String → Except String Emb) := none

/-- `(*EmbeddingService).EmbedQuery` of embeddings.go: try the real ONNX
provider, then the simple provider, then fall back to the deterministic
placeholder over the prefixed text, which cannot fail. -/
def EmbeddingService.embedQuery (s : EmbeddingService) (text : String) :
    Except String Emb :=
  let viaOnnx : Option Emb :=
    match s.realOnnxService with
    | some f => match f text with | .ok e => some e | .error _ => none
    | none => none
  match viaOnnx with
  | some e => .ok e
  | none =>
      let viaSimple : Option Emb :=
        match s.simpleService with
        | some f => match f text with | .ok e => some e | .error _ => none
        | none => none
      match viaSimple with
      | some e => .ok e
      | none => .ok (generatePlaceholderEmbedding (modelQueryPre ++ text))

/-- `(*EmbeddingService).EmbedDocument` of embeddings.go: same chain with
the document prefix. -/
def EmbeddingService.embedDocument (s : EmbeddingService) (text : String) :
    Except String Emb :=
  let viaOnnx : Option Emb :=
    match s.realOnnxService with
    | some f => match f text with | .ok e => some e | .error _ => none
    | none => none
  match viaOnnx with
  | some e => .ok e
  | none =>
      let viaSimple : Option Emb :=
        match s.simpleService with
        | some f => match f text with | .ok e => some e | .error _ => none
        | none => none
      match viaSimple with
      | some e => .ok e
      | none => .ok (generatePlaceholderEmbedding (modelDocumentPre ++ text))

/-! ## `internal/search`: SearchService (search.go)

Parsed JSON payloads (`interface{}` after `json.Unmarshal`) are the
`GoValue` inductive; the network fetch plus decompression plus JSON parse
performed by `loadFromURL` on a cache miss is an abstract deterministic
`world : String → Except String GoValue` capability. -/

/-- A parsed JSON value (`interface{}` after `encoding/json` unmarshal:
numbers are `float64`, modelled as exact rationals). -/
inductive GoValue where
  | null
  | bool (b : Bool)
  | num (q : ℚ)
  | str (s : String)
  | arr (items : List GoValue)
  | obj (fields : List (String × GoValue))

/-- `getStringField` of search.go: `m[key].(string)` comma-ok, `""` on
failure. -/
def getStringField (m : List (String × GoValue)) (key : String) : String :=
  match assocFind m key with
  | some (.str s) => s
  | _ => ""

/-- Leading-integer parse of `fmt.Sscanf(val, "%d", &intVal)`: optional
whitespace, optional sign, a digit run; on failure the destination keeps its
zero value. -/
def parseIntGo (s : String) : Int :=
  let cs := s.toList.dropWhile Char.isWhitespace
  let signed : Bool × List Char :=
    match cs with
    | '-' :: rest => (true, rest)
    | '+' :: rest => (false, rest)
    | _ => (false, cs)
  let ds := signed.2.takeWhile Char.isDigit
  if ds = [] then 0
  else
    let n : Nat := ds.foldl (fun n c => n * 10 + (c.toNat - 48)) 0
    if signed.1 then -(n : Int) else (n : Int)

/-- `getIntField` of search.go: `float64` truncates, a string is scanned
with `%d`, anything else gives `0` (the `int` assertion arm never fires on
unmarshalled JSON). -/
def getIntField (m : List (String × GoValue)) (key : String) : Int :=
  match assocFind m key with
  | some (.num q) => truncQ q
  | some (.str s) => parseIntGo s
  | _ => 0

/-- `interfaceSliceToStringSlice` of search.go. -/
def interfaceSliceToStringSlice (slice : List GoValue) : List String :=
  slice.filterMap (fun item => match item with | .str s => some s | _ => none)

/-- The embeddings-parsing loop of `PreloadGranularity` (search.go lines
161-179): builds the `VectorIndex` and the `id → vector` map.  The id is
read with an unchecked type assertion `embedding["id"].(string)`, so a
missing or non-string id panics (`none`); a missing or non-array
`"embedding"` field silently skips the entry; non-number vector components
stay `0`. -/
def parseEmbeddingsLoop :
    List GoValue → VectorIndex × List (String × List ℚ) →
    Option (VectorIndex × List (String × List ℚ))
  | [], acc => some acc
  | item :: rest, acc =>
      match item with
      | .obj fields =>
          match assocFind fields "id" with
          | some (.str id) =>
              match assocFind fields "embedding" with
              | some (.arr vecData) =>
                  let vec := vecData.map
                    (fun v => match v with | .num q => q | _ => (0 : ℚ))
                  parseEmbeddingsLoop rest
                    (acc.1.add id vec, assocSet acc.2 id vec)
              | _ => parseEmbeddingsLoop rest acc
          | _ => none
      | _ => parseEmbeddingsLoop rest acc

/-- The embeddings-payload dispatch of `PreloadGranularity`: both outer
type assertions are comma-ok, so a payload of the wrong shape yields an
empty index rather than an error. -/
def parseEmbeddings (v : GoValue) :
    Option (VectorIndex × List (String × List ℚ)) :=
  match v with
  | .obj fields =>
      match assocFind fields "embeddings" with
      | some (.arr items) => parseEmbeddingsLoop items (NewVectorIndex, [])
      | _ => some (NewVectorIndex, [])
  | _ => some (NewVectorIndex, [])

/-- One item of `processTextData` (search.go): build the `TextData` and
register it under every non-empty alias key. -/
def processTextItem (granularity : String) (i : Nat)
    (verse : List (String × GoValue)) (lookup : List (String × TextData)) :
    List (String × TextData) :=
  let textData : TextData :=
    { Text := getStringField verse "text"
      Meta :=
        { Reference := getStringField verse "ref"
          Book := getStringField verse "book"
          Chapter := getIntField verse "chapter"
          VerseNum := getIntField verse "verseNum"
          Events :=
            match assocFind verse "events" with
            | some (.arr events) => interfaceSliceToStringSlice events
            | _ => []
          Entities :=
            match assocFind verse "entities" with
            | some (.arr entities) => interfaceSliceToStringSlice entities
            | _ => [] } }
  let book := textData.Meta.Book
  let chapter := textData.Meta.Chapter
  let verseNum := textData.Meta.VerseNum
  let possibleIDs : List String :=
    [ textData.Meta.Reference
    , "verse:" ++ book ++ ":" ++ goItoa chapter ++ ":" ++ goItoa verseNum
    , "chapter:" ++ book ++ ":" ++ goItoa chapter
    , granularity ++ "_" ++ toString i
    , book ++ "." ++ goItoa chapter ++ "." ++ goItoa verseNum
    , book ++ "_" ++ goItoa chapter ++ "_" ++ goItoa verseNum
    , toString i
    , "v" ++ toString i ]
  possibleIDs.foldl
    (fun lookup id => if id ≠ "" then assocSet lookup id textData else lookup)
    lookup

/-- The verse loop of `processTextData` with its running index. -/
def processTextLoop (granularity : String) :
    Nat → List GoValue → List (String × TextData) → List (String × TextData)
  | _, [], lookup => lookup
  | i, item :: rest, lookup =>
      match item with
      | .obj verse =>
          processTextLoop granularity (i + 1) rest
            (processTextItem granularity i verse lookup)
      | _ => processTextLoop granularity (i + 1) rest lookup

/-- `processTextData` of search.go: a non-array payload yields an empty
lookup. -/
def processTextData (data : GoValue) (granularity : String) :
    List (String × TextData) :=
  match data with
  | .arr verses => processTextLoop granularity 0 verses []
  | _ => []

/-- `SearchService` of search.go.  The embedding service is the abstract
query-vector capability `embedQueryF` (its concrete provider chain is
modelled separately, see `EmbeddingService.embedQuery`); `simpleData` holds
whatever `InitializeWithPrecomputedData` was last given. -/
structure SearchService where
  embedQueryF : String → Except String (List ℚ)
  indices : List (String × VectorIndex) := []
  textLookup : List (String × List (String × TextData)) := []
  loadedGranularities : List (String × Bool) := []
  cache : List (String × GoValue) := []
  simpleData : Option (List (String × List ℚ) × List (String × String)) := none

/-- `loadFromURL` of search.go: serve from the cache, otherwise fetch,
parse and memoize.  The third component records the URLs actually fetched
(the work the cache avoids). -/
def loadFromURL (world : String → Except String GoValue)
    (cache : List (String × GoValue)) (url : String) :
    List (String × GoValue) × Except String GoValue × List String :=
  match assocFind cache url with
  | some v => (cache, .ok v, [])
  | none =>
      match world url with
      | .error e => (cache, .error e, [url])
      | .ok v => (assocSet cache url v, .ok v, [url])

/-- `loadWithFallback` of search.go. -/
def loadWithFallback (world : String → Except String GoValue)
    (cache : List (String × GoValue)) (primaryURL fallbackURL : String) :
    List (String × GoValue) × Except String GoValue × List String :=
  let r1 := loadFromURL world cache primaryURL
  match r1.2.1 with
  | .ok v => (r1.1, .ok v, r1.2.2)
  | .error _ =>
      let r2 := loadFromURL world r1.1 fallbackURL
      (r2.1, r2.2.1, r1.2.2 ++ r2.2.2)

/-- `(*SearchService).PreloadGranularity` of search.go.  `none` is a panic
(only possible through the unchecked id assertion of the embeddings parse);
otherwise the new service state, the returned error value, and the list of
URLs fetched during the call. -/
def SearchService.preloadGranularity (world : String → Except String GoValue)
    (s : SearchService) (granularity : String) :
    Option (SearchService × Except String Unit × List String) :=
  if (assocFind s.loadedGranularities granularity).getD false then
    some (s, .ok (), [])
  else
    if granularity ≠ "verse" ∧ granularity ≠ "chapter" then
      some (s, .error ("unknown granularity: " ++ granularity), [])
    else
      let embeddingURL := if granularity = "verse" then urlVerses else urlChapters
      let fallbackURL :=
        if granularity = "verse" then urlVersesUncompressed
        else urlChaptersUncompressed
      let textURL := if granularity = "verse" then urlVerseText else urlChapterText
      let r1 := loadWithFallback world s.cache embeddingURL fallbackURL
      match r1.2.1 with
      | .error e =>
          some ({ s with cache := r1.1 },
                .error ("failed to load embeddings: " ++ e), r1.2.2)
      | .ok embeddingData =>
          let r2 := loadFromURL world r1.1 textURL
          match r2.2.1 with
          | .error e =>
              some ({ s with cache := r2.1 },
                    .error ("failed to load text data: " ++ e), r1.2.2 ++ r2.2.2)
          | .ok textData =>
              match parseEmbeddings embeddingData with
              | none => none
              | some (index, embeddings) =>
                  let textLookup := processTextData textData granularity
                  let texts := textLookup.map (fun p => (p.1, p.2.Text))
                  some
                    ({ s with
                        cache := r2.1
                        indices := assocSet s.indices granularity index
                        textLookup := assocSet s.textLookup granularity textLookup
                        simpleData :=
                          if granularity = "verse" then some (embeddings, texts)
                          else s.simpleData
                        loadedGranularities :=
                          assocSet s.loadedGranularities granularity true },
                     .ok (), r1.2.2 ++ r2.2.2)

/-- The granularity default of `Search` (`"verse"` if unset). -/
def effectiveGranularity (options : SearchOptions) : String :=
  if options.Granularity = "" then "verse" else options.Granularity

/-- The k default of `Search` (`10` if zero). -/
def effectiveK (options : SearchOptions) : Int :=
  if options.K = 0 then 10 else options.K

/-- `(*SearchService).Search` of search.go.  `none` is a panic (a `nil`
index pointer despite the loaded flag, or a panic inside
`SearchWithFilter`); otherwise the source's `([]SearchResult, error)`. -/
def SearchService.search (s : SearchService) (query : String)
    (options : SearchOptions) : Option (Except String (List SearchResult)) :=
  if query = "" then some (.ok [])
  else
    let options :=
      { options with
        Granularity := effectiveGranularity options
        K := effectiveK options }
    if ¬ ((assocFind s.loadedGranularities options.Granularity).getD false) then
      some (.error ("granularity " ++ options.Granularity ++ " not loaded"))
    else
      match assocFind s.indices options.Granularity with
      | none => none
      | some index =>
          let textLookup := (assocFind s.textLookup options.Granularity).getD []
          match s.embedQueryF query with
          | .error e =>
              some (.error ("failed to generate query embedding: " ++ e))
          | .ok queryEmbedding =>
              let filterFunc : String → Bool :=
                if options.Book ≠ "" ∨ options.Chapter ≠ "" then
                  fun id =>
                    match assocFind textLookup id with
                    | some text =>
                        if options.Book ≠ "" ∧
                            ¬ goEqualFold text.Meta.Book options.Book then false
                        else if options.Chapter ≠ "" ∧
                            goItoa text.Meta.Chapter ≠ options.Chapter then false
                        else true
                    | none => false
                else fun _ => true
              match index.searchWithFilter queryEmbedding options.K filterFunc with
              | none => none
              | some searchResults =>
                  some (.ok (searchResults.map (fun sr =>
                    let textData := (assocFind textLookup sr.ID).getD
                      { Text := "[Text not found for ID: " ++ sr.ID ++ "]"
                        Meta := {} }
                    { ID := sr.ID
                      Similarity := sr.Similarity
                      Score := sr.Score
                      Chunk :=
                        { ID := sr.ID
                          Text := textData.Text
                          Meta := textData.Meta } })))

/-- `(*SearchService).GetStatus` of search.go: one entry per index with
`(loaded, count, memoryBytes)`; `none` is the panic `GetMemoryUsage`
raises on an empty index. -/
def SearchService.getStatus (s : SearchService) :
    Option (List (String × Bool × Nat × Int)) :=
  s.indices.mapM (fun p =>
    (p.2.getMemoryUsage).map (fun mem =>
      (p.1, (assocFind s.loadedGranularities p.1).getD false, p.2.size, mem)))

/-! ## HTTP handler (api package) -/

/-- `SearchRequest` of the api package (only the fields the modelled
handler logic reads). -/
structure SearchRequest where
  Query : String := ""
  Options : SearchOptions := {}
  Granularity : String := ""
  K : Int := 0
  Book : String := ""
  Chapter : String := ""
  Verse : String := ""
deriving DecidableEq, Repr, Inhabited

/-- `maxInt` of the api package: fold `max` over the values starting from
`0`. -/
def goMaxInt (values : List Int) : Int :=
  values.foldl (fun m v => if v > m then v else m) 0

/-- `coalesce` of the api package: first non-empty string, else `""`. -/
def goCoalesce (values : List String) : String :=
  (values.find? (fun v => v ≠ "")).getD ""

/-- The `K` field of the options the handler passes to
`SearchService.Search`: `maxInt(req.K, req.Options.K, 10)`. -/
def handlerEffectiveK (req : SearchRequest) : Int :=
  goMaxInt [req.K, req.Options.K, 10]

/-! ## Statement vocabulary -/

/-- A result list ranked in descending order of (encoded) cosine
similarity. -/
def sortedDescending (rs : List SearchResult) : Prop :=
  rs.Pairwise (fun r1 r2 => r2.Similarity ≤ r1.Similarity)

/-- Equal-similarity results appear in the insertion order of the index
(positions in `vi.IDs`); meaningful when ids are distinct. -/
def stableWrtIndex (vi : VectorIndex) (rs : List SearchResult) : Prop :=
  rs.Pairwise (fun r1 r2 =>
    r1.Similarity = r2.Similarity →
      vi.IDs.indexOf r1.ID ≤ vi.IDs.indexOf r2.ID)

instance : DecidablePred (sortedDescending) := fun rs =>
  List.instDecidablePairwise rs

instance (vi : VectorIndex) : DecidablePred (stableWrtIndex vi) := fun rs =>
  List.instDecidablePairwise rs

/-- A stable truncated ranking: for every similarity value, the output's
tie class is an initial run of the tie class of the pre-sort list (which is
in insertion order). -/
def stableTiesPreserved (original rs : List SearchResult) : Prop :=
  ∀ v : ℚ, rs.filter (fun r => decide (r.Similarity = v)) =
    (original.filter (fun r => decide (r.Similarity = v))).take
      ((rs.filter (fun r => decide (r.Similarity = v))).length)

/-! ## Concrete inputs used by counterexamples and witnesses -/

/-- Fourteen entries (ids `"a"`..`"n"` in insertion order); `"g"` and `"n"`
hold `[1]`, the rest `[0]`, so against query `[1]` the similarities are two
exact `1` ties and twelve exact `0` ties. -/
def cexIndex : VectorIndex :=
  { Vectors :=
      [[0], [0], [0], [0], [0], [0], [1], [0], [0], [0], [0], [0], [0], [1]]
    IDs := ["a", "b", "c", "d", "e", "f", "g", "h", "i", "j", "k", "l", "m", "n"] }

/-- A provider world for the preload witness: embeddings and text payloads
for the verse granularity, errors elsewhere. -/
def witnessWorld : String → Except String GoValue := fun url =>
  if url = urlVerses then
    .ok (.obj [("embeddings",
      .arr [.obj [("id", .str "v0"), ("embedding", .arr [.num 1, .num 0])]])])
  else if url = urlVerseText then
    .ok (.arr [.obj [("text", .str "In the beginning"),
      ("book", .str "Genesis"), ("chapter", .num 1), ("verseNum", .num 1),
      ("ref", .str "Gen 1:1")]])
  else .error "HTTP 404"

/-- A fresh service for the preload witness. -/
def witnessService : SearchService :=
  { embedQueryF := fun _ => .error "no provider" }

/-- The state after the first successful preload of the witness service. -/
def witnessLoaded : SearchService :=
  match SearchService.preloadGranularity witnessWorld witnessService "verse" with
  | some (st, _, _) => st
  | none => witnessService

/-- The URL trace of the first preload of the witness service. -/
def witnessTrace : List String :=
  match SearchService.preloadGranularity witnessWorld witnessService "verse" with
  | some (_, _, t) => t
  | none => []

/-- A loaded two-entry service (books `"John"` and `"Matthew"`) for the
filter-correctness witness. -/
def filterService : SearchService :=
  { embedQueryF := fun _ => .ok [1]
    indices := [("verse", { Vectors := [[1], [1]], IDs := ["id1", "id2"] })]
    textLookup := [("verse",
      [("id1", { Text := "t1", Meta := { Book := "John", Chapter := 3 } }),
       ("id2", { Text := "t2", Meta := { Book := "Matthew", Chapter := 1 } })])]
    loadedGranularities := [("verse", true)] }

/-- The results of the filter-correctness witness search. -/
def filterResults : List SearchResult :=
  match SearchService.search filterService "love"
      { Book := "john", K := 5 } with
  | some (.ok rs) => rs
  | _ => []

/-! # Proofs

## Permutation facts for the `sort.Slice` transcription

Every mutation the sort performs is an `lswap`, so each helper returns a
permutation of its input; this underlies every length and membership fact
about search results. -/

theorem cons_set_perm (t : List α) (m : Nat) (a b : α)
    (h : t[m]? = some b) : (b :: t.set m a).Perm (a :: t) := by
  induction t generalizing m with
  | nil => simp at h
  | cons y u ih =>
      cases m with
      | zero =>
          simp only [List.getElem?_cons_zero, Option.some.injEq] at h
          subst h
          simpa using List.Perm.swap a y u
      | succ m =>
          simp only [List.getElem?_cons_succ] at h
          have s1 : (b :: y :: u.set m a).Perm (y :: b :: u.set m a) :=
            List.Perm.swap y b _
          have s2 : (y :: b :: u.set m a).Perm (y :: a :: u) :=
            List.Perm.cons y (ih m h)
          have s3 : (y :: a :: u).Perm (a :: y :: u) := List.Perm.swap a y u
          simpa using (s1.trans s2).trans s3

theorem set_set_perm (l : List α) (i j : Nat) (a b : α)
    (ha : l[i]? = some a) (hb : l[j]? = some b) :
    ((l.set i b).set j a).Perm l := by
  induction l generalizing i j with
  | nil => simp at ha
  | cons x t ih =>
      cases i with
      | zero =>
          simp only [List.getElem?_cons_zero, Option.some.injEq] at ha
          subst ha
          cases j with
          | zero =>
              simp only [List.getElem?_cons_zero, Option.some.injEq] at hb
              subst hb
              simp
          | succ j =>
              simp only [List.getElem?_cons_succ] at hb
              simpa using cons_set_perm t j x b hb
      | succ i =>
          simp only [List.getElem?_cons_succ] at ha
          cases j with
          | zero =>
              simp only [List.getElem?_cons_zero, Option.some.injEq] at hb
              subst hb
              simpa using cons_set_perm t i x a ha
          | succ j =>
              simp only [List.getElem?_cons_succ] at hb
              simpa using List.Perm.cons x (ih i j ha hb)

theorem lswap_perm (l : List α) (i j : Nat) : (lswap l i j).Perm l := by
  unfold lswap
  cases ha : l[i]? with
  | none => exact List.Perm.refl l
  | some a =>
      cases hb : l[j]? with
      | none => exact List.Perm.refl l
      | some b => exact set_set_perm l i j a b ha hb

theorem innerGo_perm (less : α → α → Bool) (lo : Nat) :
    ∀ (j : Nat) (l : List α), (innerGo less lo l j).Perm l := by
  intro j
  induction j with
  | zero => intro l; exact List.Perm.refl l
  | succ j ih =>
      intro l
      rw [innerGo]
      split
      · exact (ih _).trans (lswap_perm l (j + 1) j)
      · exact List.Perm.refl l

theorem outerGo_perm (less : α → α → Bool) (lo b : Nat) :
    ∀ (fuel : Nat) (l : List α) (i : Nat), (outerGo less lo b fuel l i).Perm l := by
  intro fuel
  induction fuel with
  | zero => intro l i; exact List.Perm.refl l
  | succ fuel ih =>
      intro l i
      rw [outerGo]
      split
      · exact (ih _ _).trans (innerGo_perm less lo i l)
      · exact List.Perm.refl l

theorem insertionSortGo_perm (less : α → α → Bool) (l : List α) (a b : Nat) :
    (insertionSortGo less l a b).Perm l :=
  outerGo_perm less a b (b - a) l (a + 1)

theorem siftDownGo_perm (less : α → α → Bool) (hi first : Nat) :
    ∀ (fuel : Nat) (l : List α) (root : Nat),
      (siftDownGo less hi first fuel l root).Perm l := by
  intro fuel
  induction fuel with
  | zero => intro l root; exact List.Perm.refl l
  | succ fuel ih =>
      intro l root
      rw [siftDownGo]
      dsimp only
      split
      · exact List.Perm.refl l
      · split <;> split <;>
          first
            | exact List.Perm.refl l
            | exact (ih _ _).trans (lswap_perm l _ _)

theorem heapBuildGo_perm (less : α → α → Bool) (hi first : Nat) :
    ∀ (i : Nat) (l : List α), (heapBuildGo less hi first i l).Perm l := by
  intro i
  induction i with
  | zero => intro l; exact siftDownGo_perm less hi first hi l 0
  | succ i ih =>
      intro l
      exact (ih _).trans (siftDownGo_perm less hi first hi l (i + 1))

theorem heapPopGo_perm (less : α → α → Bool) (first : Nat) :
    ∀ (i : Nat) (l : List α), (heapPopGo less first i l).Perm l := by
  intro i
  induction i with
  | zero =>
      intro l
      exact (siftDownGo_perm less 0 first 0 _ 0).trans (lswap_perm l _ _)
  | succ i ih =>
      intro l
      exact (ih _).trans
        ((siftDownGo_perm less (i + 1) first (i + 1) _ 0).trans
          (lswap_perm l _ _))

theorem heapSortGo_perm (less : α → α → Bool) (l : List α) (a b : Nat) :
    (heapSortGo less l a b).Perm l := by
  unfold heapSortGo
  cases h : b - a with
  | zero => exact List.Perm.refl l
  | succ hi =>
      exact (heapPopGo_perm less a hi _).trans (heapBuildGo_perm less _ a _ l)

theorem reverseRangeAux_perm :
    ∀ (fuel : Nat) (l : List α) (i j : Nat), (reverseRangeAux fuel l i j).Perm l := by
  intro fuel
  induction fuel with
  | zero => intro l i j; exact List.Perm.refl l
  | succ fuel ih =>
      intro l i j
      rw [reverseRangeAux]
      split
      · exact (ih _ _ _).trans (lswap_perm l i j)
      · exact List.Perm.refl l

theorem reverseRangeGo_perm (l : List α) (a b : Nat) :
    (reverseRangeGo l a b).Perm l :=
  reverseRangeAux_perm b l a (b - 1)

theorem breakPatternsLoop_perm (a len modulus : Nat) :
    ∀ (n : Nat) (idx rand : Nat) (l : List α),
      (breakPatternsLoop a len modulus idx rand n l).Perm l := by
  intro n
  induction n with
  | zero => intro idx rand l; exact List.Perm.refl l
  | succ n ih =>
      intro idx rand l
      rw [breakPatternsLoop]
      exact (ih _ _ _).trans (lswap_perm l _ _)

theorem breakPatternsGo_perm (l : List α) (a b : Nat) :
    (breakPatternsGo l a b).Perm l := by
  unfold breakPatternsGo
  dsimp only
  split
  · exact breakPatternsLoop_perm a (b - a) _ 3 _ (b - a) l
  · exact List.Perm.refl l

theorem shiftLeftGo_perm (less : α → α → Bool) (a : Nat) :
    ∀ (fuel : Nat) (l : List α) (j : Nat), (shiftLeftGo less a fuel l j).Perm l := by
  intro fuel
  induction fuel with
  | zero => intro l j; exact List.Perm.refl l
  | succ fuel ih =>
      intro l j
      rw [shiftLeftGo]
      split
      · split
        · exact List.Perm.refl l
        · exact (ih _ _).trans (lswap_perm l _ _)
      · exact List.Perm.refl l

theorem shiftRightGo_perm (less : α → α → Bool) (b : Nat) :
    ∀ (fuel : Nat) (l : List α) (j : Nat), (shiftRightGo less b fuel l j).Perm l := by
  intro fuel
  induction fuel with
  | zero => intro l j; exact List.Perm.refl l
  | succ fuel ih =>
      intro l j
      rw [shiftRightGo]
      split
      · split
        · exact List.Perm.refl l
        · exact (ih _ _).trans (lswap_perm l _ _)
      · exact List.Perm.refl l

theorem partialInsertionSortLoop_perm (less : α → α → Bool) (a b : Nat) :
    ∀ (steps : Nat) (l : List α) (i : Nat),
      ((partialInsertionSortLoop less a b steps l i).1).Perm l := by
  intro steps
  induction steps with
  | zero => intro l i; exact List.Perm.refl l
  | succ steps ih =>
      intro l i
      rw [partialInsertionSortLoop]
      dsimp only
      split
      · exact List.Perm.refl l
      · split
        · exact List.Perm.refl l
        · refine (ih _ _).trans ?_
          split
          · refine (shiftRightGo_perm less b b _ _).trans ?_
            split
            · exact (shiftLeftGo_perm less a b _ _).trans (lswap_perm l _ _)
            · exact lswap_perm l _ _
          · split
            · exact (shiftLeftGo_perm less a b _ _).trans (lswap_perm l _ _)
            · exact lswap_perm l _ _

theorem partialInsertionSortGo_perm (less : α → α → Bool) (l : List α)
    (a b : Nat) : ((partialInsertionSortGo less l a b).1).Perm l :=
  partialInsertionSortLoop_perm less a b 5 l (a + 1)

theorem partitionLoopGo_perm (less : α → α → Bool) (a b : Nat) :
    ∀ (fuel : Nat) (l : List α) (i j : Nat),
      ((partitionLoopGo less a b fuel l i j).1).Perm l := by
  intro fuel
  induction fuel with
  | zero => intro l i j; exact List.Perm.refl l
  | succ fuel ih =>
      intro l i j
      rw [partitionLoopGo]
      split
      · exact List.Perm.refl l
      · exact (ih _ _ _).trans (lswap_perm l _ _)

theorem partitionGo_perm (less : α → α → Bool) (l : List α) (a b pivot : Nat) :
    ((partitionGo less l a b pivot).1).Perm l := by
  unfold partitionGo
  dsimp only
  split
  · exact (lswap_perm _ _ _).trans (lswap_perm l a pivot)
  · exact (lswap_perm _ _ _).trans
      (((partitionLoopGo_perm less a b b _ _ _).trans (lswap_perm _ _ _)).trans
        (lswap_perm l a pivot))

theorem partitionEqualLoopGo_perm (less : α → α → Bool) (a : Nat) :
    ∀ (fuel : Nat) (l : List α) (i j : Nat),
      ((partitionEqualLoopGo less a fuel l i j).1).Perm l := by
  intro fuel
  induction fuel with
  | zero => intro l i j; exact List.Perm.refl l
  | succ fuel ih =>
      intro l i j
      rw [partitionEqualLoopGo]
      split
      · exact List.Perm.refl l
      · exact (ih _ _ _).trans (lswap_perm l _ _)

theorem partitionEqualGo_perm (less : α → α → Bool) (l : List α)
    (a b pivot : Nat) : ((partitionEqualGo less l a b pivot).1).Perm l :=
  (partitionEqualLoopGo_perm less a b _ _ _).trans (lswap_perm l a pivot)

theorem ite_breakPatterns_perm (c : Prop) [Decidable c] (l : List α)
    (a b : Nat) : (if c then breakPatternsGo l a b else l).Perm l := by
  split
  · exact breakPatternsGo_perm l a b
  · exact List.Perm.refl l

theorem ite_reverseRange_perm (c : Prop) [Decidable c] (m : List α)
    (a b : Nat) : (if c then reverseRangeGo m a b else m).Perm m := by
  split
  · exact reverseRangeGo_perm m a b
  · exact List.Perm.refl m

theorem ite_partialInsertion_perm (c : Prop) [Decidable c]
    (less : α → α → Bool) (m : List α) (a b : Nat) :
    ((if c then partialInsertionSortGo less m a b else (m, false)).1).Perm m := by
  split
  · exact partialInsertionSortGo_perm less m a b
  · exact List.Perm.refl m

set_option maxHeartbeats 1600000 in
theorem pdqsortGo_perm (less : α → α → Bool) :
    ∀ (fuel : Nat) (l : List α) (a b : Nat) (limit : Int) (wb wp : Bool),
      (pdqsortGo less fuel l a b limit wb wp).Perm l := by
  intro fuel
  induction fuel with
  | zero => intro l a b limit wb wp; exact List.Perm.refl l
  | succ fuel ih =>
      intro l a b limit wb wp
      rw [pdqsortGo]
      dsimp only
      split
      · exact insertionSortGo_perm less l a b
      · split
        · exact heapSortGo_perm less l a b
        · repeat' split
          all_goals
            repeat
              first
                | exact List.Perm.refl _
                | (dsimp only)
                | refine (ih _ _ _ _ _ _).trans ?_
                | refine (partitionGo_perm less _ _ _ _).trans ?_
                | refine (partitionEqualGo_perm less _ _ _ _).trans ?_
                | refine (partialInsertionSortGo_perm less _ _ _).trans ?_
                | refine (reverseRangeGo_perm _ _ _).trans ?_
                | refine (breakPatternsGo_perm _ _ _).trans ?_
                | refine (insertionSortGo_perm less _ _ _).trans ?_
                | refine (heapSortGo_perm less _ _ _).trans ?_

theorem goSortSlice_perm (less : α → α → Bool) (l : List α) :
    (goSortSlice less l).Perm l :=
  pdqsortGo_perm less (l.length + 1) l 0 l.length _ true true

theorem goSortSlice_length (less : α → α → Bool) (l : List α) :
    (goSortSlice less l).length = l.length :=
  (goSortSlice_perm less l).length_eq

theorem goSortSlice_mem (less : α → α → Bool) (l : List α) (x : α) :
    x ∈ goSortSlice less l ↔ x ∈ l :=
  (goSortSlice_perm less l).mem_iff

/-! ## `istep`/`isort`: sortedness and stability of the insertion sort -/

theorem istep_split (less : α → α → Bool) (S : List α) (x : α) :
    (S.reverse.dropWhile (fun p => less x p)).reverse ++
      (S.reverse.takeWhile (fun p => less x p)).reverse = S := by
  rw [← List.reverse_append, List.takeWhile_append_dropWhile,
    List.reverse_reverse]

theorem istep_length (less : α → α → Bool) (S : List α) (x : α) :
    (istep less S x).length = S.length + 1 := by
  have h := congrArg List.length (istep_split less S x)
  rw [List.length_append] at h
  unfold istep
  rw [List.length_append, List.length_cons]
  omega

theorem istep_perm (less : α → α → Bool) (S : List α) (x : α) :
    (istep less S x).Perm (x :: S) := by
  have h := @List.perm_middle α x
    ((S.reverse.dropWhile (fun p => less x p)).reverse)
    ((S.reverse.takeWhile (fun p => less x p)).reverse)
  rw [istep_split] at h
  exact h

theorem istep_sorted (key : α → ℚ) (S : List α) (x : α)
    (hS : S.Pairwise (fun a b => key b ≤ key a)) :
    (istep (keyLess key) S x).Pairwise (fun a b => key b ≤ key a) := by
  unfold istep
  rw [List.pairwise_append]
  refine ⟨?_, ?_, ?_⟩
  · have hsub : (S.reverse.dropWhile (fun p => keyLess key x p)).reverse.Sublist S := by
      have h2 : (S.reverse.dropWhile (fun p => keyLess key x p)).Sublist S.reverse :=
        List.dropWhile_sublist _
      have h3 := h2.reverse
      rwa [List.reverse_reverse] at h3
    exact hS.sublist hsub
  · rw [List.pairwise_cons]
    constructor
    · intro q hq
      rw [List.mem_reverse] at hq
      have h := List.mem_takeWhile_imp hq
      simp only [keyLess, decide_eq_true_eq] at h
      exact le_of_lt h
    · have hsub : (S.reverse.takeWhile (fun p => keyLess key x p)).reverse.Sublist S := by
        have h2 : (S.reverse.takeWhile (fun p => keyLess key x p)).Sublist S.reverse :=
          List.takeWhile_sublist _
        have h3 := h2.reverse
        rwa [List.reverse_reverse] at h3
      exact hS.sublist hsub
  · intro p hp z hz
    have hrev : S.reverse.Pairwise (fun a b => key a ≤ key b) := by
      rw [List.pairwise_reverse]
      exact hS
    rw [List.mem_reverse] at hp
    have hD : (S.reverse.dropWhile (fun p => keyLess key x p)).Pairwise
        (fun a b => key a ≤ key b) :=
      hrev.sublist (List.dropWhile_sublist _)
    cases hDeq : S.reverse.dropWhile (fun p => keyLess key x p) with
    | nil => rw [hDeq] at hp; cases hp
    | cons y tail =>
        rw [hDeq] at hp hD
        have hy : keyLess key x y = false := by
          have hh := List.head?_dropWhile_not (fun p => keyLess key x p) S.reverse
          rw [hDeq] at hh
          simpa using hh
        have hxy : key x ≤ key y := by
          simp only [keyLess, decide_eq_false_iff_not, not_lt] at hy
          exact hy
        have hyp : key y ≤ key p := by
          rcases List.mem_cons.mp hp with rfl | hp2
          · exact le_refl _
          · exact (List.pairwise_cons.mp hD).1 p hp2
        have hxp : key x ≤ key p := le_trans hxy hyp
        rcases List.mem_cons.mp hz with rfl | hz2
        · exact hxp
        · rw [List.mem_reverse] at hz2
          have h := List.mem_takeWhile_imp hz2
          simp only [keyLess, decide_eq_true_eq] at h
          exact le_trans (le_of_lt h) hxp

theorem istep_filter (key : α → ℚ) (S : List α) (x : α) (v : ℚ) :
    (istep (keyLess key) S x).filter (fun a => decide (key a = v)) =
      S.filter (fun a => decide (key a = v)) ++
        (if key x = v then [x] else []) := by
  have hQnil : key x = v →
      (S.reverse.takeWhile (fun p => keyLess key x p)).reverse.filter
        (fun a => decide (key a = v)) = [] := by
    intro hxv
    rw [List.filter_eq_nil_iff]
    intro q hq
    rw [List.mem_reverse] at hq
    have h := List.mem_takeWhile_imp hq
    simp only [keyLess, decide_eq_true_eq] at h
    simp only [decide_eq_true_eq]
    intro hqv
    rw [hqv, hxv] at h
    exact lt_irrefl v h
  conv_rhs => rw [← istep_split (keyLess key) S x]
  unfold istep
  rw [List.filter_append, List.filter_append, List.filter_cons]
  by_cases hxv : key x = v
  · rw [hQnil hxv]
    simp [hxv]
  · simp [hxv]

theorem foldl_istep_sorted (key : α → ℚ) :
    ∀ (l acc : List α), acc.Pairwise (fun a b => key b ≤ key a) →
      (l.foldl (istep (keyLess key)) acc).Pairwise (fun a b => key b ≤ key a) := by
  intro l
  induction l with
  | nil => intro acc h; exact h
  | cons x l ih =>
      intro acc h
      exact ih _ (istep_sorted key acc x h)

theorem isort_sorted (key : α → ℚ) (l : List α) :
    (isort (keyLess key) l).Pairwise (fun a b => key b ≤ key a) :=
  foldl_istep_sorted key l [] List.Pairwise.nil

theorem foldl_istep_filter (key : α → ℚ) (v : ℚ) :
    ∀ (l acc : List α),
      (l.foldl (istep (keyLess key)) acc).filter (fun a => decide (key a = v)) =
        acc.filter (fun a => decide (key a = v)) ++
          l.filter (fun a => decide (key a = v)) := by
  intro l
  induction l with
  | nil => intro acc; simp
  | cons x l ih =>
      intro acc
      rw [List.foldl_cons, ih, istep_filter, List.filter_cons]
      by_cases hxv : key x = v
      · simp [hxv]
      · simp [hxv]

theorem isort_filter (key : α → ℚ) (v : ℚ) (l : List α) :
    (isort (keyLess key) l).filter (fun a => decide (key a = v)) =
      l.filter (fun a => decide (key a = v)) := by
  unfold isort
  rw [foldl_istep_filter]
  simp

/-! ## Simulation: `insertionSortGo` on a full range computes `isort` -/

theorem lswap_cons_succ (y : α) (t : List α) (i j : Nat) :
    lswap (y :: t) (i + 1) (j + 1) = y :: lswap t i j := by
  unfold lswap
  rw [List.getElem?_cons_succ, List.getElem?_cons_succ]
  cases t[i]? with
  | none => rfl
  | some a =>
      cases t[j]? with
      | none => rfl
      | some b => simp [List.set]

theorem getElem?_append_cons_length (A : List α) (x : α) (R : List α) :
    (A ++ x :: R)[A.length]? = some x := by
  rw [List.getElem?_append]
  simp

theorem lswap_adjacent (A : List α) (p x : α) (R : List α) :
    lswap (A ++ p :: x :: R) (A.length + 1) A.length = A ++ x :: p :: R := by
  induction A with
  | nil => simp [lswap, List.set]
  | cons y A ih =>
      simp only [List.cons_append, List.length_cons]
      rw [lswap_cons_succ, ih]

theorem istep_nil (less : α → α → Bool) (x : α) : istep less [] x = [x] := by
  simp [istep]

theorem istep_snoc_not (less : α → α → Bool) (A : List α) (p x : α)
    (h : less x p = false) : istep less (A ++ [p]) x = (A ++ [p]) ++ [x] := by
  unfold istep
  rw [List.reverse_append]
  simp only [List.reverse_singleton, List.singleton_append,
    List.dropWhile_cons, List.takeWhile_cons, h]
  simp

theorem istep_snoc_less (less : α → α → Bool) (A : List α) (p x : α)
    (h : less x p = true) : istep less (A ++ [p]) x = istep less A x ++ [p] := by
  unfold istep
  rw [List.reverse_append]
  simp only [List.reverse_singleton, List.singleton_append,
    List.dropWhile_cons, List.takeWhile_cons, h]
  simp

theorem innerGo_sim (less : α → α → Bool) (x : α) :
    ∀ (A R : List α),
      innerGo less 0 (A ++ x :: R) A.length = istep less A x ++ R := by
  intro A
  induction A using List.reverseRecOn with
  | nil => intro R; simp [innerGo, istep_nil]
  | append_singleton A p ih =>
      intro R
      have hlen : (A ++ [p]).length = A.length + 1 := by simp
      have harr : (A ++ [p]) ++ x :: R = A ++ p :: x :: R := by simp
      have h1 : ((A ++ [p]) ++ x :: R)[A.length + 1]? = some x := by
        have h := getElem?_append_cons_length (A ++ [p]) x R
        rwa [hlen] at h
      have h2 : ((A ++ [p]) ++ x :: R)[A.length]? = some p := by
        rw [harr]; exact getElem?_append_cons_length A p (x :: R)
      have hL : lessAt less ((A ++ [p]) ++ x :: R) (A.length + 1) A.length
          = less x p := by
        unfold lessAt; rw [h1, h2]
      rw [hlen, innerGo]
      by_cases hxp : less x p = true
      · rw [if_pos ⟨Nat.zero_le _, by rw [hL]; exact hxp⟩]
        have hsw : lswap ((A ++ [p]) ++ x :: R) (A.length + 1) A.length
            = A ++ x :: p :: R := by
          rw [harr]; exact lswap_adjacent A p x R
        rw [hsw, ih (p :: R), istep_snoc_less less A p x hxp]
        simp
      · rw [if_neg (by rw [hL]; simp [hxp])]
        rw [istep_snoc_not less A p x (by simpa using hxp)]
        simp

theorem outerGo_sim (less : α → α → Bool) :
    ∀ (T S : List α) (fuel : Nat), T.length ≤ fuel →
      outerGo less 0 (S.length + T.length) fuel (S ++ T) S.length =
        T.foldl (istep less) S := by
  intro T
  induction T with
  | nil =>
      intro S fuel _
      cases fuel with
      | zero => simp [outerGo]
      | succ f =>
          rw [outerGo, if_neg (by simp)]
          simp
  | cons x T ih =>
      intro S fuel hf
      cases fuel with
      | zero => simp at hf
      | succ f =>
          rw [outerGo, if_pos (by simp)]
          rw [innerGo_sim less x S T]
          have hlen := istep_length less S x
          have hb : S.length + (x :: T).length = (istep less S x).length + T.length := by
            rw [hlen, List.length_cons]; omega
          have hi : S.length + 1 = (istep less S x).length := by rw [hlen]
          rw [hb, hi, ih (istep less S x) f (by simpa using hf)]
          simp

theorem insertionSortGo_sim (less : α → α → Bool) (l : List α) :
    insertionSortGo less l 0 l.length = isort less l := by
  cases l with
  | nil => rfl
  | cons x t =>
      unfold insertionSortGo
      have h := outerGo_sim less t [x] (t.length + 1) (by omega)
      simp only [List.length_singleton, List.singleton_append] at h
      have hb : (x :: t).length = 1 + t.length := by simp; omega
      have hfuel : (x :: t).length - 0 = t.length + 1 := by simp
      rw [hfuel]
      rw [show (x :: t).length = 1 + t.length from by simp [Nat.add_comm]]
      rw [h]
      unfold isort
      rw [List.foldl_cons, istep_nil]

theorem goSortSlice_eq_isort (less : α → α → Bool) (l : List α)
    (h : l.length ≤ 12) : goSortSlice less l = isort less l := by
  unfold goSortSlice
  rw [pdqsortGo, if_pos (by simpa using h)]
  exact insertionSortGo_sim less l

/-! ## Facts about `SearchWithFilter` and `Search` -/

theorem resultLess_eq_keyLess :
    resultLess = keyLess (fun r : SearchResult => r.Similarity) := rfl

theorem filteredResults_true (vi : VectorIndex) (query : List ℚ) :
    filteredResults vi query (fun _ => true) = searchResultsList vi query := by
  simp [filteredResults, searchResultsList]

theorem search_eq_searchWithFilter (vi : VectorIndex) (query : List ℚ)
    (k : Int) :
    vi.search query k = vi.searchWithFilter query k (fun _ => true) := by
  unfold VectorIndex.search VectorIndex.searchWithFilter
  rw [filteredResults_true]

theorem filteredResults_id_passes (vi : VectorIndex) (query : List ℚ)
    (filter : String → Bool) (r : SearchResult)
    (hr : r ∈ filteredResults vi query filter) : filter r.ID = true := by
  unfold filteredResults at hr
  obtain ⟨p, hp, rfl⟩ := List.mem_map.mp hr
  exact (List.mem_filter.mp hp).2

theorem filteredResults_length_empty (vi : VectorIndex) (query : List ℚ)
    (filter : String → Bool) (h : vi.Vectors = []) :
    filteredResults vi query filter = [] := by
  unfold filteredResults
  rw [h]
  simp

theorem searchWithFilter_mem (vi : VectorIndex) (query : List ℚ) (k : Int)
    (filter : String → Bool) (rs : List SearchResult)
    (h : vi.searchWithFilter query k filter = some rs) :
    ∀ r ∈ rs, r ∈ filteredResults vi query filter := by
  unfold VectorIndex.searchWithFilter at h
  split at h
  · cases h
    intro r hr
    cases hr
  · split at h
    · cases h
    · dsimp only at h
      by_cases hgt : k > ((filteredResults vi query filter).length : Int)
      · rw [if_pos hgt, if_neg (by omega)] at h
        cases h
        intro r hr
        exact (goSortSlice_mem resultLess _ r).mp ((List.take_sublist _ _).mem hr)
      · rw [if_neg hgt] at h
        by_cases hk0 : k < 0
        · rw [if_pos hk0] at h; cases h
        · rw [if_neg hk0] at h
          cases h
          intro r hr
          exact (goSortSlice_mem resultLess _ r).mp ((List.take_sublist _ _).mem hr)

theorem searchWithFilter_length (vi : VectorIndex) (query : List ℚ) (k : Int)
    (filter : String → Bool) (rs : List SearchResult)
    (h : vi.searchWithFilter query k filter = some rs) :
    rs.length = min k.toNat (filteredResults vi query filter).length := by
  unfold VectorIndex.searchWithFilter at h
  split at h
  · rename_i hempty
    cases h
    rw [filteredResults_length_empty vi query filter (List.length_eq_zero.mp hempty)]
    simp
  · split at h
    · cases h
    · dsimp only at h
      by_cases hgt : k > ((filteredResults vi query filter).length : Int)
      · rw [if_pos hgt, if_neg (by omega)] at h
        cases h
        rw [List.length_take, goSortSlice_length]
        omega
      · rw [if_neg hgt] at h
        by_cases hk0 : k < 0
        · rw [if_pos hk0] at h; cases h
        · rw [if_neg hk0] at h
          cases h
          rw [List.length_take, goSortSlice_length]

theorem searchWithFilter_isSome (vi : VectorIndex) (query : List ℚ) (k : Int)
    (filter : String → Bool) (hk : 0 ≤ k)
    (hlen : vi.Vectors.length ≤ vi.IDs.length) :
    (vi.searchWithFilter query k filter).isSome = true := by
  unfold VectorIndex.searchWithFilter
  split
  · rfl
  · rw [if_neg (by omega)]
    dsimp only
    by_cases hgt : k > ((filteredResults vi query filter).length : Int)
    · rw [if_pos hgt, if_neg (by omega)]; rfl
    · rw [if_neg hgt, if_neg (by omega)]; rfl

theorem filter_take_prefix (p : α → Bool) :
    ∀ (l : List α) (n : Nat), ∃ m, (l.take n).filter p = (l.filter p).take m := by
  intro l
  induction l with
  | nil => intro n; exact ⟨0, by simp⟩
  | cons x t ih =>
      intro n
      cases n with
      | zero => exact ⟨0, by simp⟩
      | succ n =>
          obtain ⟨m, hm⟩ := ih n
          by_cases hx : p x
          · exact ⟨m + 1, by simp [List.filter_cons, hx, hm]⟩
          · exact ⟨m, by simp [List.filter_cons, hx, hm]⟩

theorem take_eq_take_length (l : List α) (m : Nat) :
    l.take m = l.take ((l.take m).length) := by
  rw [List.length_take]
  rw [List.take_eq_take]
  omega

theorem searchWithFilter_sorted_stable (vi : VectorIndex) (query : List ℚ)
    (k : Int) (filter : String → Bool) (rs : List SearchResult)
    (h : vi.searchWithFilter query k filter = some rs)
    (h12 : (filteredResults vi query filter).length ≤ 12) :
    sortedDescending rs ∧ stableTiesPreserved (filteredResults vi query filter) rs := by
  unfold VectorIndex.searchWithFilter at h
  split at h
  · rename_i hempty
    cases h
    constructor
    · exact List.Pairwise.nil
    · intro v
      rw [filteredResults_length_empty vi query filter (List.length_eq_zero.mp hempty)]
      simp
  · split at h
    · cases h
    · dsimp only at h
      have main : ∀ n : Nat,
          sortedDescending
            ((goSortSlice resultLess (filteredResults vi query filter)).take n) ∧
          stableTiesPreserved (filteredResults vi query filter)
            ((goSortSlice resultLess (filteredResults vi query filter)).take n) := by
        intro n
        rw [goSortSlice_eq_isort resultLess _ h12, resultLess_eq_keyLess]
        constructor
        · unfold sortedDescending
          exact (isort_sorted (fun r : SearchResult => r.Similarity) _).sublist
            (List.take_sublist _ _)
        · intro v
          obtain ⟨m, hm⟩ := filter_take_prefix
            (fun r => decide (r.Similarity = v))
            (isort (keyLess fun r : SearchResult => r.Similarity)
              (filteredResults vi query filter)) n
          rw [hm, isort_filter (fun r : SearchResult => r.Similarity) v]
          rw [← take_eq_take_length]
      by_cases hgt : k > ((filteredResults vi query filter).length : Int)
      · rw [if_pos hgt, if_neg (by omega)] at h
        cases h
        exact main _
      · rw [if_neg hgt] at h
        by_cases hk0 : k < 0
        · rw [if_pos hk0] at h; cases h
        · rw [if_neg hk0] at h
          cases h
          exact main _

/-! ## Assorted helper lemmas for the service layer -/

theorem assocFind_assocSet (m : List (String × β)) (k : String) (v : β) :
    assocFind (assocSet m k v) k = some v := by
  induction m with
  | nil => simp [assocSet, assocFind]
  | cons p rest ih =>
      obtain ⟨k0, v0⟩ := p
      by_cases hp : k0 = k <;> simp [assocSet, assocFind, hp, ih]

theorem mapM_option_none {β γ : Type} (f : β → Option γ) :
    ∀ (l : List β) (x : β), x ∈ l → f x = none → l.mapM f = none := by
  intro l
  induction l with
  | nil => intro x hx; cases hx
  | cons y t ih =>
      intro x hx hfx
      rw [List.mapM_cons]
      rcases List.mem_cons.mp hx with rfl | hx2
      · rw [hfx]; rfl
      · cases hfy : f y with
        | none => rfl
        | some v => rw [ih x hx2 hfx]; rfl

/-! # The claims -/

/-- C10: at the HTTP boundary the effective result count handed to
`SearchService.Search` is the maximum of the request-level k, the
options-struct k, and 10 (a fold of `max`, not a first-non-zero coalesce),
so every handler-issued search uses `k ≥ 10` and a requested `k < 10` is
silently raised to 10. -/
theorem claim_C10_handler_k_is_max :
    ∀ req : SearchRequest,
      handlerEffectiveK req = max (max req.K req.Options.K) 10 ∧
      10 ≤ handlerEffectiveK req := by
  intro req
  unfold handlerEffectiveK goMaxInt
  simp only [List.foldl_cons, List.foldl_nil]
  constructor
  · split_ifs <;> omega
  · split_ifs <;> omega

/-- C9: `GetMemoryUsage` dereferences `Vectors[0]` unconditionally, so it
is only safe on an index holding at least one vector: on an empty index it
panics (`none`) instead of returning 0, and `GetStatus` on a service whose
indices map contains an empty index panics in turn. -/
theorem claim_C9_getMemoryUsage_empty_panics :
    ∀ (vi : VectorIndex) (s : SearchService) (g : String),
      (vi.Vectors = [] → vi.getMemoryUsage = none) ∧
      (vi.Vectors ≠ [] → (vi.getMemoryUsage).isSome = true) ∧
      ((g, vi) ∈ s.indices → vi.Vectors = [] → s.getStatus = none) := by
  intro vi s g
  refine ⟨?_, ?_, ?_⟩
  · intro h
    simp [VectorIndex.getMemoryUsage, h]
  · intro h
    cases hv : vi.Vectors with
    | nil => exact absurd hv h
    | cons v0 rest => simp [VectorIndex.getMemoryUsage, hv]
  · intro hmem hempty
    unfold SearchService.getStatus
    apply mapM_option_none _ _ (g, vi) hmem
    simp [VectorIndex.getMemoryUsage, hempty]

/-- Witness for C9 at concrete inputs: the empty index panics, and a status
call over a service holding an empty index panics. -/
theorem claim_C9_witness :
    VectorIndex.getMemoryUsage { Vectors := [], IDs := [] } = none ∧
    SearchService.getStatus
      { embedQueryF := fun _ => .error ""
        indices := [("verse", { Vectors := [], IDs := [] })] } = none :=
  ⟨(claim_C9_getMemoryUsage_empty_panics { Vectors := [], IDs := [] }
      { embedQueryF := fun _ => .error "" } "verse").1 rfl,
   (claim_C9_getMemoryUsage_empty_panics { Vectors := [], IDs := [] }
      { embedQueryF := fun _ => .error ""
        indices := [("verse", { Vectors := [], IDs := [] })] } "verse").2.2
     (by simp) rfl⟩

/-- C4: `EmbedQuery` and `EmbedDocument` never surface an error: whatever
the ONNX and simple providers do, the deterministic placeholder fallback is
total, so the chain always returns `ok`. -/
theorem claim_C4_embed_chain_never_fails :
    ∀ (s : EmbeddingService) (text : String),
      (∃ v, s.embedQuery text = .ok v) ∧
      (∃ v, s.embedDocument text = .ok v) := by
  intro s text
  constructor
  · cases hO : s.realOnnxService with
    | none =>
        cases hS : s.simpleService with
        | none =>
            exact ⟨generatePlaceholderEmbedding (modelQueryPre ++ text),
              by simp [EmbeddingService.embedQuery, hO, hS]⟩
        | some g =>
            cases hg : g text with
            | error e =>
                exact ⟨generatePlaceholderEmbedding (modelQueryPre ++ text),
                  by simp [EmbeddingService.embedQuery, hO, hS, hg]⟩
            | ok e =>
                exact ⟨e, by simp [EmbeddingService.embedQuery, hO, hS, hg]⟩
    | some f =>
        cases hf : f text with
        | error e =>
            cases hS : s.simpleService with
            | none =>
                exact ⟨generatePlaceholderEmbedding (modelQueryPre ++ text),
                  by simp [EmbeddingService.embedQuery, hO, hS, hf]⟩
            | some g =>
                cases hg : g text with
                | error e2 =>
                    exact ⟨generatePlaceholderEmbedding (modelQueryPre ++ text),
                      by simp [EmbeddingService.embedQuery, hO, hS, hf, hg]⟩
                | ok e2 =>
                    exact ⟨e2, by simp [EmbeddingService.embedQuery, hO, hS, hf, hg]⟩
        | ok e => exact ⟨e, by simp [EmbeddingService.embedQuery, hO, hf]⟩
  · cases hO : s.realOnnxService with
    | none =>
        cases hS : s.simpleService with
        | none =>
            exact ⟨generatePlaceholderEmbedding (modelDocumentPre ++ text),
              by simp [EmbeddingService.embedDocument, hO, hS]⟩
        | some g =>
            cases hg : g text with
            | error e =>
                exact ⟨generatePlaceholderEmbedding (modelDocumentPre ++ text),
                  by simp [EmbeddingService.embedDocument, hO, hS, hg]⟩
            | ok e =>
                exact ⟨e, by simp [EmbeddingService.embedDocument, hO, hS, hg]⟩
    | some f =>
        cases hf : f text with
        | error e =>
            cases hS : s.simpleService with
            | none =>
                exact ⟨generatePlaceholderEmbedding (modelDocumentPre ++ text),
                  by simp [EmbeddingService.embedDocument, hO, hS, hf]⟩
            | some g =>
                cases hg : g text with
                | error e2 =>
                    exact ⟨generatePlaceholderEmbedding (modelDocumentPre ++ text),
                      by simp [EmbeddingService.embedDocument, hO, hS, hf, hg]⟩
                | ok e2 =>
                    exact ⟨e2, by simp [EmbeddingService.embedDocument, hO, hS, hf, hg]⟩
        | ok e => exact ⟨e, by simp [EmbeddingService.embedDocument, hO, hf]⟩

/-- C8: the deterministic placeholder embedding is a total deterministic
function: it is defined on every string (including the empty string), two
calls on equal strings return identical vectors, and the vector always has
the configured 128 dimensions. -/
theorem claim_C8_placeholder_deterministic_total :
    ∀ s t : String, s = t →
      generatePlaceholderEmbedding s = generatePlaceholderEmbedding t ∧
      (generatePlaceholderEmbedding s).1.length = modelDimensions := by
  intro s t h
  subst h
  refine ⟨rfl, ?_⟩
  unfold generatePlaceholderEmbedding normalizeGo
  dsimp only
  split <;> simp [modelDimensions]

/-- Witness for C8 at a concrete string (the equal-input hypothesis is
discharged by `rfl`). -/
theorem claim_C8_witness :
    generatePlaceholderEmbedding "In the beginning" =
        generatePlaceholderEmbedding "In the beginning" ∧
      (generatePlaceholderEmbedding "In the beginning").1.length =
        modelDimensions :=
  claim_C8_placeholder_deterministic_total "In the beginning"
    "In the beginning" rfl

/-- Counterexample to C5: `Add` performs no dimension validation — a
3-component vector is inserted into an empty index without any failure,
although the configured dimension is 128. -/
theorem claim_C5_counterexample :
    (NewVectorIndex.add "x" [1, 2, 3]).Vectors = [[(1 : ℚ), 2, 3]] ∧
    ¬ ([(1 : ℚ), 2, 3].length = modelDimensions) := by
  exact ⟨rfl, by decide⟩

/-- C5 as amended: `Add` appends unconditionally — any id and any vector,
of any length, are appended to the two parallel slices and the size grows
by one; no dimension check exists in the source. -/
theorem claim_C5_amended_add_appends_unchecked :
    ∀ (vi : VectorIndex) (id : String) (v : List ℚ),
      (vi.add id v).Vectors = vi.Vectors ++ [v] ∧
      (vi.add id v).IDs = vi.IDs ++ [id] ∧
      (vi.add id v).size = vi.size + 1 := by
  intro vi id v
  refine ⟨rfl, rfl, ?_⟩
  simp [VectorIndex.add, VectorIndex.size]

/-- C3 (code bug): the quantize→dequantize round trip does not reconstruct
the input within one scale unit — `dequantizeVector` never adds the
per-vector minimum back, so on `[10, 12]` (scale `2/255`) the code returns
`[0, 2]` and both components are off by 10, four orders of magnitude more
than one scale step, contradicting the stated bound and dequantize's own
"convert back to original range" comment. -/
theorem claim_C3_roundtrip_drops_min_offset :
    quantizeVector [10, 12] = some ([-128, 127], 2 / 255) ∧
    dequantizeVector [-128, 127] (2 / 255) = [0, 2] ∧
    ¬ (|(10 : ℚ) - 0| ≤ 2 / 255) ∧ ¬ (|(12 : ℚ) - 2| ≤ 2 / 255) := by
  refine ⟨?_, ?_, ?_, ?_⟩
  · with_unfolding_all rfl
  · with_unfolding_all rfl
  · exact of_decide_eq_false (by with_unfolding_all rfl)
  · exact of_decide_eq_false (by with_unfolding_all rfl)

/-- Counterexample to C1: `SearchWithFilter` with a negative k on a
non-empty index panics (`results[:k]` with `k < 0`) instead of returning an
empty result set. -/
theorem claim_C1_counterexample :
    VectorIndex.searchWithFilter { Vectors := [[1]], IDs := ["x"] } [1] (-1)
      (fun _ => true) = none := by
  with_unfolding_all rfl

/-- C1 as amended: for every `k ≥ 0` (negative k panics on a non-empty
index, see the counterexample) and every index whose two parallel slices
agree in length (the only states `Add` constructs), `SearchWithFilter`
returns without error exactly `min k (number of filter-accepted entries)`
results; `k = 0` and the empty index give an empty result. -/
theorem claim_C1_amended_min_k_eligible :
    ∀ (vi : VectorIndex) (query : List ℚ) (k : Int) (filter : String → Bool),
      0 ≤ k → vi.IDs.length = vi.Vectors.length →
      ∃ rs, vi.searchWithFilter query k filter = some rs ∧
        rs.length = min k.toNat (filteredResults vi query filter).length := by
  intro vi query k filter hk hlen
  have hs := searchWithFilter_isSome vi query k filter hk (by omega)
  obtain ⟨rs, hrs⟩ := Option.isSome_iff_exists.mp hs
  exact ⟨rs, hrs, searchWithFilter_length vi query k filter rs hrs⟩

/-- Witness for C1 at a concrete two-entry index with `k = 1`. -/
theorem claim_C1_witness :
    ∃ rs, VectorIndex.searchWithFilter
        { Vectors := [[1], [0]], IDs := ["x", "y"] } [1] 1 (fun _ => true) =
          some rs ∧
      rs.length = min (1 : Int).toNat
        (filteredResults { Vectors := [[1], [0]], IDs := ["x", "y"] } [1]
          (fun _ => true)).length :=
  claim_C1_amended_min_k_eligible { Vectors := [[1], [0]], IDs := ["x", "y"] }
    [1] 1 (fun _ => true) (by decide) (by decide)

/-- Any successful return of `PreloadGranularity` leaves the granularity
flagged loaded: both successful exits (the already-loaded short-circuit and
the full load) guarantee it. -/
theorem preload_ok_sets_flag (world : String → Except String GoValue)
    (s : SearchService) (g : String) (s₁ : SearchService) (tr : List String)
    (h : SearchService.preloadGranularity world s g = some (s₁, .ok (), tr)) :
    (assocFind s₁.loadedGranularities g).getD false = true := by
  unfold SearchService.preloadGranularity at h
  split at h
  · rename_i hflag
    simp only [Option.some.injEq, Prod.mk.injEq] at h
    obtain ⟨h1, _, _⟩ := h
    rw [← h1]
    exact hflag
  · split at h
    · simp at h
    · dsimp only at h
      split at h
      · simp at h
      · split at h
        · simp at h
        · split at h
          · cases h
          · simp only [Option.some.injEq, Prod.mk.injEq] at h
            obtain ⟨h1, _, _⟩ := h
            rw [← h1]
            simp [assocFind_assocSet]

/-- C7: `PreloadGranularity` is idempotent — after a first successful call
for a granularity, a second call performs no fetch/parse/build work (its
URL trace is empty), returns success, and leaves the service state (index,
lookup table and all) unchanged. -/
theorem claim_C7_preload_idempotent :
    ∀ (world : String → Except String GoValue) (s : SearchService)
      (g : String) (s₁ : SearchService) (tr : List String),
      SearchService.preloadGranularity world s g = some (s₁, .ok (), tr) →
      SearchService.preloadGranularity world s₁ g = some (s₁, .ok (), []) := by
  intro world s g s₁ tr h
  have hflag := preload_ok_sets_flag world s g s₁ tr h
  unfold SearchService.preloadGranularity
  rw [if_pos hflag]

/-- C6: with a non-empty `options.Book`, `SearchService.Search` returns
only results whose id resolves in the granularity's lookup table to a
`TextChunk` whose book equals `options.Book` case-insensitively — every
other entry is excluded regardless of similarity rank; with no filters set,
the accept-all predicate is used and the result count is
`min(k, index size)`. -/
theorem claim_C6_book_filter_correct :
    ∀ (s : SearchService) (query : String) (options : SearchOptions)
      (rs : List SearchResult),
      SearchService.search s query options = some (.ok rs) →
      (options.Book ≠ "" →
        ∀ r ∈ rs, ∃ td : TextData,
          assocFind ((assocFind s.textLookup (effectiveGranularity options)).getD [])
              r.ID = some td ∧
            goEqualFold td.Meta.Book options.Book = true) ∧
      (options.Book = "" → options.Chapter = "" → query ≠ "" →
        ∀ idx : VectorIndex,
          assocFind s.indices (effectiveGranularity options) = some idx →
          rs.length = min (effectiveK options).toNat
            (min idx.IDs.length idx.Vectors.length)) := by
  intro s query options rs h
  unfold SearchService.search at h
  by_cases hq : query = ""
  · rw [if_pos hq] at h
    simp only [Option.some.injEq] at h
    have hrs : rs = [] := by
      injection h with h2
      exact h2.symm
    subst hrs
    constructor
    · intro _ r hr; cases hr
    · intro _ _ hq2 _ _; exact absurd hq hq2
  · rw [if_neg hq] at h
    dsimp only at h
    split at h
    · simp at h
    · split at h
      · cases h
      · rename_i idx hidx
        split at h
        · simp at h
        · rename_i qe hqe
          by_cases hf : options.Book ≠ "" ∨ options.Chapter ≠ ""
          · rw [if_pos hf] at h
            split at h
            · cases h
            · rename_i rs0 hrs0
              simp only [Option.some.injEq, Except.ok.injEq] at h
              subst h
              constructor
              · intro hB r hr
                obtain ⟨sr, hsr, rfl⟩ := List.mem_map.mp hr
                have hmem := searchWithFilter_mem _ _ _ _ _ hrs0 sr hsr
                have hpass := filteredResults_id_passes _ _ _ _ hmem
                dsimp only at hpass ⊢
                cases hfind : assocFind
                    ((assocFind s.textLookup (effectiveGranularity options)).getD [])
                    sr.ID with
                | none => rw [hfind] at hpass; cases hpass
                | some td =>
                    rw [hfind] at hpass
                    dsimp only at hpass
                    refine ⟨td, rfl, ?_⟩
                    by_cases hfold : goEqualFold td.Meta.Book options.Book = true
                    · exact hfold
                    · rw [if_pos ⟨hB, by simpa using hfold⟩] at hpass
                      cases hpass
              · intro hB hC _ _ _
                rcases hf with hf | hf
                · exact absurd hB hf
                · exact absurd hC hf
          · rw [if_neg hf] at h
            split at h
            · cases h
            · rename_i rs0 hrs0
              simp only [Option.some.injEq, Except.ok.injEq] at h
              subst h
              constructor
              · intro hB _ _
                exact absurd (Or.inl hB) hf
              · intro hB hC hq2 idx2 hidx2
                rw [hidx] at hidx2
                have hidx3 : idx = idx2 := by injection hidx2
                subst hidx3
                have hlen := searchWithFilter_length _ _ _ _ _ hrs0
                rw [List.length_map, hlen, filteredResults_true]
                unfold searchResultsList
                rw [List.length_map, List.length_zip]

/-- Witness for C6: a loaded two-entry service (`id1` is `"John"`, `id2` is
`"Matthew"`); a search with `options.book = "john"` returns only the
`id1`-derived result. -/
theorem claim_C6_witness :
    ∃ td : TextData,
      assocFind ((assocFind filterService.textLookup
          (effectiveGranularity { Book := "john", K := 5 })).getD [])
        filterResults.head!.ID = some td ∧
      goEqualFold td.Meta.Book "john" = true := by
  have hne : filterResults ≠ [] := by
    have hlen : filterResults.length = 1 := by with_unfolding_all rfl
    intro hniL
    rw [hniL] at hlen
    simp at hlen
  exact (claim_C6_book_filter_correct filterService "love" { Book := "john", K := 5 }
      filterResults (by with_unfolding_all rfl)).1 (by decide)
    filterResults.head! (List.head!_mem_self hne)

/-- Witness for C7: a concrete verse preload against a two-payload world
loads successfully; the second call is a work-free success returning the
unchanged state. -/
theorem claim_C7_witness :
    SearchService.preloadGranularity witnessWorld witnessLoaded "verse" =
      some (witnessLoaded, .ok (), []) :=
  claim_C7_preload_idempotent witnessWorld witnessService "verse"
    witnessLoaded witnessTrace (by with_unfolding_all rfl)

end GoScripture
